import Mathlib

/-!
Shallow embedding of the `rustcore` streaming feature engine
(src/rustcore/src/{lib,features,welford,functors,event}.rs and build.rs).

Machine floats (`f32` accumulators, `f64` statistics) are modelled as exact
rationals `ℚ`; the `as f32` narrowing casts in the source are modelled as the
identity, so every arithmetic claim below is settled over the idealised exact
arithmetic the spec describes.  Millisecond timestamps (`i64`) are modelled
as `ℤ`.  In-place mutation is modelled by explicit state passing.
-/

/-- `LAMBDA` decay constant from src/rustcore/src/lib.rs line 12. -/
def LAMBDA : ℚ := 995 / 1000

/-- `f64::EPSILON`, the machine epsilon used by the ratio guard. -/
def f64_EPSILON : ℚ := 1 / 2 ^ 52

/-- Slot index constants, src/rustcore/src/lib.rs lines 13-17. -/
def IDX_LIQ_DELTA_ABS : Fin 256 := ⟨0, by omega⟩

def IDX_LIQ_DELTA_RATIO : Fin 256 := ⟨1, by omega⟩

def IDX_OF_SIGNED_VOL : Fin 256 := ⟨64, by omega⟩

def IDX_OF_TRADE_COUNT : Fin 256 := ⟨65, by omega⟩

def IDX_OF_IA_TIME_MS : Fin 256 := ⟨66, by omega⟩

namespace welford

/-- `welford::update`, src/rustcore/src/welford.rs lines 5-9: one EWMA
mean/variance step.  The Rust routine mutates `mean` and `var` in place; here
it returns the pair `(mean, var)` after the step. -/
def update (mean var value lambda : ℚ) : ℚ × ℚ :=
  let delta := value - mean
  (mean + (1 - lambda) * delta, lambda * (var + (1 - lambda) * delta * delta))

end welford

/-- `FeatureVec`, src/rustcore/src/features.rs lines 3-8: 256 raw `f32`
accumulators plus 256 decayed means and variances (`f64`). -/
structure FeatureVec where
  data : Fin 256 → ℚ
  means : Fin 256 → ℚ
  vars : Fin 256 → ℚ

namespace FeatureVec

/-- `FeatureVec::new`: all slots zeroed. -/
def new : FeatureVec := { data := fun _ => 0, means := fun _ => 0, vars := fun _ => 0 }

/-- `FeatureVec::reset_data`, src/rustcore/src/features.rs lines 21-25: only
the raw accumulators are cleared; means/vars persist. -/
def reset_data (fv : FeatureVec) : FeatureVec := { fv with data := fun _ => 0 }

/-- `FeatureVec::update`, src/rustcore/src/features.rs lines 33-35: apply the
EWMA step to slot `idx`'s mean/variance. -/
def update (fv : FeatureVec) (idx : Fin 256) (value lambda : ℚ) : FeatureVec :=
  let mv := welford.update (fv.means idx) (fv.vars idx) value lambda
  { fv with
      means := Function.update fv.means idx mv.1
      vars := Function.update fv.vars idx mv.2 }

end FeatureVec

/-- `PyEvent`, src/rustcore/src/lib.rs lines 22-28: the tagged event record
handed to `push_event`, with optional payload fields. -/
structure PyEvent where
  tag : String
  delta : Option ℚ
  prev : Option ℚ
  amount : Option ℚ
  timestamp_ms : Option ℤ

/-- `FeatureEngine`, src/rustcore/src/lib.rs lines 95-102: feature state, two
lag buffers and the stateful last-swap timestamp.  The pre-allocated NumPy
output buffer is modelled as the value returned by `on_slot_end`. -/
structure FeatureEngine where
  fv : FeatureVec
  lag1 : Fin 256 → ℚ
  lag2 : Fin 256 → ℚ
  last_swap_ts : Option ℤ

namespace FeatureEngine

/-- `FeatureEngine::new`, src/rustcore/src/lib.rs lines 107-117: fresh state,
everything zeroed, no swap seen yet. -/
def new : FeatureEngine :=
  { fv := FeatureVec.new, lag1 := fun _ => 0, lag2 := fun _ => 0, last_swap_ts := none }

/-- `FeatureEngine::apply_liquidity`, src/rustcore/src/lib.rs lines 166-173. -/
def apply_liquidity (e : FeatureEngine) (delta prev : ℚ) : FeatureEngine :=
  let a := |delta|
  let fv1 := { e.fv with
    data := Function.update e.fv.data IDX_LIQ_DELTA_ABS (e.fv.data IDX_LIQ_DELTA_ABS + a) }
  let fv2 := fv1.update IDX_LIQ_DELTA_ABS a LAMBDA
  let ratio := if |prev| > f64_EPSILON then delta / prev else 0
  let fv3 := { fv2 with
    data := Function.update fv2.data IDX_LIQ_DELTA_RATIO
      (fv2.data IDX_LIQ_DELTA_RATIO + ratio) }
  let fv4 := fv3.update IDX_LIQ_DELTA_RATIO ratio LAMBDA
  { e with fv := fv4 }

/-- `FeatureEngine::apply_swap`, src/rustcore/src/lib.rs lines 175-192.  Note
the inter-arrival slot is assigned (not accumulated) and only in the
`Some(last)` branch; the EWMA update runs with `dt = 0` on the first swap. -/
def apply_swap (e : FeatureEngine) (amount : ℚ) (ts : ℤ) : FeatureEngine :=
  let fv1 := { e.fv with
    data := Function.update e.fv.data IDX_OF_SIGNED_VOL
      (e.fv.data IDX_OF_SIGNED_VOL + amount) }
  let fv2 := fv1.update IDX_OF_SIGNED_VOL amount LAMBDA
  let fv3 := { fv2 with
    data := Function.update fv2.data IDX_OF_TRADE_COUNT
      (fv2.data IDX_OF_TRADE_COUNT + 1) }
  let fv4 := fv3.update IDX_OF_TRADE_COUNT 1 LAMBDA
  match e.last_swap_ts with
  | some last =>
      let dt : ℚ := ((ts - last : ℤ) : ℚ)
      let fv5 := { fv4 with
        data := Function.update fv4.data IDX_OF_IA_TIME_MS dt }
      let fv6 := fv5.update IDX_OF_IA_TIME_MS dt LAMBDA
      { e with fv := fv6, last_swap_ts := some ts }
  | none =>
      let fv6 := fv4.update IDX_OF_IA_TIME_MS 0 LAMBDA
      { e with fv := fv6, last_swap_ts := some ts }

/-- `FeatureEngine::push_event`, src/rustcore/src/lib.rs lines 119-134:
validate the tagged event, fail with an error before touching state, else
dispatch to the category's apply routine. -/
def push_event (e : FeatureEngine) (evt : PyEvent) : Except String FeatureEngine :=
  if evt.tag = "Liquidity" then
    match evt.delta with
    | none => .error "missing delta"
    | some d =>
        match evt.prev with
        | none => .error "missing prev"
        | some p => .ok (e.apply_liquidity d p)
  else if evt.tag = "Swap" then
    match evt.amount with
    | none => .error "missing amount"
    | some a =>
        match evt.timestamp_ms with
        | none => .error "missing timestamp"
        | some t => .ok (e.apply_swap a t)
  else .error "unknown event tag"

/-- `FeatureEngine::on_slot_end`, src/rustcore/src/lib.rs lines 136-153:
emit `[current, lag1, lag2]` (768 values), then rotate the lag buffers by
swap (lag-1 becomes lag-2, current becomes lag-1) and reset the current
accumulators.  `_slot` is bookkeeping only. -/
def on_slot_end (e : FeatureEngine) (_slot : ℕ) : (Fin 768 → ℚ) × FeatureEngine :=
  (fun i =>
    if h : i.val < 256 then e.fv.data ⟨i.val, h⟩
    else if h2 : i.val < 512 then e.lag1 ⟨i.val - 256, by omega⟩
    else e.lag2 ⟨i.val - 512, by omega⟩,
   { fv := e.fv.reset_data
     lag1 := e.fv.data
     lag2 := e.lag1
     last_swap_ts := e.last_swap_ts })

/-- `FeatureEngine::get_stats`, src/rustcore/src/lib.rs lines 155-157. -/
def get_stats (e : FeatureEngine) (idx : Fin 256) : ℚ × ℚ :=
  (e.fv.means idx, e.fv.vars idx)

end FeatureEngine

/-- `Event`, src/rustcore/src/event.rs lines 1-6.  The `Flush` ack channel
carries no feature data and is irrelevant to feature state, so it is elided. -/
inductive Event where
  | Liquidity (delta prev : ℚ)
  | Swap (amount : ℚ) (timestamp_ms : ℤ)
  | Flush

/-- `LiqDeltaAbs::apply`, src/rustcore/src/functors.rs lines 17-27. -/
def LiqDeltaAbs.apply (fv : FeatureVec) (evt : Event) : FeatureVec :=
  match evt with
  | .Liquidity delta _ =>
      let a := |delta|
      let fv1 := { fv with
        data := Function.update fv.data IDX_LIQ_DELTA_ABS (fv.data IDX_LIQ_DELTA_ABS + a) }
      fv1.update IDX_LIQ_DELTA_ABS a LAMBDA
  | _ => fv

/-- `LiqDeltaRatio::apply`, src/rustcore/src/functors.rs lines 29-39. -/
def LiqDeltaRatio.apply (fv : FeatureVec) (evt : Event) : FeatureVec :=
  match evt with
  | .Liquidity delta prev =>
      let ratio := if |prev| > f64_EPSILON then delta / prev else 0
      let fv1 := { fv with
        data := Function.update fv.data IDX_LIQ_DELTA_RATIO
          (fv.data IDX_LIQ_DELTA_RATIO + ratio) }
      fv1.update IDX_LIQ_DELTA_RATIO ratio LAMBDA
  | _ => fv

/-- `OfSignedVolume::apply`, src/rustcore/src/functors.rs lines 41-50. -/
def OfSignedVolume.apply (fv : FeatureVec) (evt : Event) : FeatureVec :=
  match evt with
  | .Swap amount _ =>
      let fv1 := { fv with
        data := Function.update fv.data IDX_OF_SIGNED_VOL (fv.data IDX_OF_SIGNED_VOL + amount) }
      fv1.update IDX_OF_SIGNED_VOL amount LAMBDA
  | _ => fv

/-- `OfTradeCount::apply`, src/rustcore/src/functors.rs lines 52-61. -/
def OfTradeCount.apply (fv : FeatureVec) (evt : Event) : FeatureVec :=
  match evt with
  | .Swap _ _ =>
      let fv1 := { fv with
        data := Function.update fv.data IDX_OF_TRADE_COUNT (fv.data IDX_OF_TRADE_COUNT + 1) }
      fv1.update IDX_OF_TRADE_COUNT 1 LAMBDA
  | _ => fv

/-- `OfIaTimeMs::apply`, src/rustcore/src/functors.rs lines 63-77: the
stateful functor's `AtomicI64` last-timestamp field is passed and returned
explicitly (single-writer discipline makes the atomic a plain field). -/
def OfIaTimeMs.apply (last : ℤ) (fv : FeatureVec) (evt : Event) : ℤ × FeatureVec :=
  match evt with
  | .Swap _ timestamp_ms =>
      let dt : ℚ := if last = 0 then 0 else ((timestamp_ms - last : ℤ) : ℚ)
      let fv1 := { fv with
        data := Function.update fv.data IDX_OF_IA_TIME_MS dt }
      (timestamp_ms, fv1.update IDX_OF_IA_TIME_MS dt LAMBDA)
  | _ => (last, fv)

/-- The catalog-drift check of src/rustcore/build.rs lines 19-26, over the
list of catalog indices: the build computes `len(idx)`, `len(set(idx))` and
`max(idx)` and refuses to build unless they are 256, 256 and 255. -/
def catalog_check (idx : List ℕ) : Bool :=
  decide (idx.length = 256) && decide (idx.dedup.length = 256)
    && decide (idx.foldr max 0 = 255)

set_option maxRecDepth 8000

-- Sanity examples (concrete evaluations of the embedding).
example : welford.update 0 0 2 (1/2) = (1, 1) := by
  simp only [welford.update]
  norm_num
example : catalog_check (List.range 256) = true := by rfl
example : catalog_check (List.range 255) = false := by rfl

/-- C5: the EWMA updater is a pure function satisfying exactly the spec's
closed-form equations `mean' = mean + (1-lambda)*(value-mean)` and
`var' = lambda*(var + (1-lambda)*(value-mean)^2)` at every input; identical
inputs therefore always produce identical outputs. -/
theorem C5_ewma_update_closed_form (mean var value lambda : ℚ) :
    welford.update mean var value lambda =
      (mean + (1 - lambda) * (value - mean),
       lambda * (var + (1 - lambda) * (value - mean) ^ 2)) := by
  simp only [welford.update, Prod.mk.injEq]
  constructor
  · trivial
  · ring

/-- C8: applying every built-in functor to a `Flush` event leaves the feature
state (every accumulator, mean and variance) exactly unchanged, and leaves
the stateful functor's last-timestamp untouched. -/
theorem C8_flush_leaves_state_unchanged (fv : FeatureVec) (last : ℤ) :
    LiqDeltaAbs.apply fv .Flush = fv ∧
    LiqDeltaRatio.apply fv .Flush = fv ∧
    OfSignedVolume.apply fv .Flush = fv ∧
    OfTradeCount.apply fv .Flush = fv ∧
    OfIaTimeMs.apply last fv .Flush = (last, fv) := by
  refine ⟨rfl, rfl, rfl, rfl, rfl⟩

/-- Folding `on_slot_end` over a list of slot ids with no intervening events
(each call discards the emitted snapshot and keeps the rotated state). -/
def runSlotEnds (e : FeatureEngine) (slots : List ℕ) : FeatureEngine :=
  slots.foldl (fun acc s => (acc.on_slot_end s).2) e

/-- C7: for every slot index and every sequence of consecutive `on_slot_end`
calls with no intervening `push_event`, the slot's decayed mean and variance
(as read by `get_stats`) are exactly what they were before the calls. -/
theorem C7_slot_end_preserves_stats (e : FeatureEngine) (slots : List ℕ) (i : Fin 256) :
    (runSlotEnds e slots).get_stats i = e.get_stats i := by
  induction slots generalizing e with
  | nil => rfl
  | cons s rest ih => exact ih ((e.on_slot_end s).2)

/-- C4: `on_slot_end` emits the 768 values laid out as
`[current (256), lag-1 (256), lag-2 (256)]`, then rotates (lag-1 becomes
lag-2, current becomes lag-1) and zeroes the current accumulators while
leaving means and variances untouched; hence a second call with no
intervening events returns an all-zero current region and a lag-1 region
equal to the first call's current region. -/
theorem C4_on_slot_end_layout_and_rotation (e : FeatureEngine) (s1 s2 : ℕ) :
    (∀ i : Fin 256, (e.on_slot_end s1).1 ⟨i.val, by omega⟩ = e.fv.data i) ∧
    (∀ i : Fin 256, (e.on_slot_end s1).1 ⟨i.val + 256, by omega⟩ = e.lag1 i) ∧
    (∀ i : Fin 256, (e.on_slot_end s1).1 ⟨i.val + 512, by omega⟩ = e.lag2 i) ∧
    (e.on_slot_end s1).2.lag2 = e.lag1 ∧
    (e.on_slot_end s1).2.lag1 = e.fv.data ∧
    (∀ i : Fin 256, (e.on_slot_end s1).2.fv.data i = 0) ∧
    (e.on_slot_end s1).2.fv.means = e.fv.means ∧
    (e.on_slot_end s1).2.fv.vars = e.fv.vars ∧
    (∀ i : Fin 256, ((e.on_slot_end s1).2.on_slot_end s2).1 ⟨i.val, by omega⟩ = 0) ∧
    (∀ i : Fin 256, ((e.on_slot_end s1).2.on_slot_end s2).1 ⟨i.val + 256, by omega⟩ =
      (e.on_slot_end s1).1 ⟨i.val, by omega⟩) := by
  refine ⟨?_, ?_, ?_, rfl, rfl, fun i => rfl, rfl, rfl, ?_, ?_⟩
  · intro i
    simp only [FeatureEngine.on_slot_end]
    rw [dif_pos i.isLt]
  · intro i
    have h1 : ¬ i.val + 256 < 256 := by omega
    have h2 : i.val + 256 < 512 := by omega
    simp only [FeatureEngine.on_slot_end]
    rw [dif_neg h1, dif_pos h2]
    congr 1
  · intro i
    have h1 : ¬ i.val + 512 < 256 := by omega
    have h2 : ¬ i.val + 512 < 512 := by omega
    simp only [FeatureEngine.on_slot_end]
    rw [dif_neg h1, dif_neg h2]
    congr 1
  · intro i
    simp only [FeatureEngine.on_slot_end]
    rw [dif_pos i.isLt]
    rfl
  · intro i
    have h1 : ¬ i.val + 256 < 256 := by omega
    have h2 : i.val + 256 < 512 := by omega
    simp only [FeatureEngine.on_slot_end]
    rw [dif_neg h1, dif_pos h2, dif_pos i.isLt]
    congr 1

/-- C6: for every `Liquidity(delta, prev)` event applied to any engine state,
the ratio slot (index 1) accumulator grows by exactly `delta/prev` when
`|prev|` exceeds the `f64` machine epsilon, and by exactly `0` otherwise. -/
theorem C6_liquidity_ratio_slot (e : FeatureEngine) (delta prev : ℚ) :
    (e.apply_liquidity delta prev).fv.data IDX_LIQ_DELTA_RATIO =
      e.fv.data IDX_LIQ_DELTA_RATIO +
        (if |prev| > f64_EPSILON then delta / prev else 0) := by
  simp only [FeatureEngine.apply_liquidity, FeatureVec.update]
  have h01 : IDX_LIQ_DELTA_RATIO ≠ IDX_LIQ_DELTA_ABS := by decide
  simp [Function.update_noteq h01, Function.update_same]

/-- C3: `push_event` returns an `InvalidEvent`-style error exactly when the
event's tag is unknown or a field required by the declared category is
missing; on a valid event it succeeds and the result is exactly the
category's functor application.  The error is produced before any state
transformation (the embedding returns early, mirroring the `?` operator in
the source), so an erroring call leaves the engine state untouched. -/
theorem C3_push_event_validation (e : FeatureEngine) (evt : PyEvent) :
    ((∃ msg, e.push_event evt = .error msg) ↔
      ((evt.tag ≠ "Liquidity" ∧ evt.tag ≠ "Swap") ∨
       (evt.tag = "Liquidity" ∧ (evt.delta = none ∨ evt.prev = none)) ∨
       (evt.tag = "Swap" ∧ (evt.amount = none ∨ evt.timestamp_ms = none)))) ∧
    (∀ d p, evt.tag = "Liquidity" → evt.delta = some d → evt.prev = some p →
      e.push_event evt = .ok (e.apply_liquidity d p)) ∧
    (∀ a t, evt.tag = "Swap" → evt.amount = some a → evt.timestamp_ms = some t →
      e.push_event evt = .ok (e.apply_swap a t)) := by
  have hLS : ("Liquidity" : String) ≠ "Swap" := by decide
  by_cases hL : evt.tag = "Liquidity"
  · cases hd : evt.delta with
    | none => simp [FeatureEngine.push_event, hL, hd, hLS]
    | some d =>
        cases hp : evt.prev with
        | none => simp [FeatureEngine.push_event, hL, hd, hp, hLS]
        | some p => simp [FeatureEngine.push_event, hL, hd, hp, hLS]
  · by_cases hS : evt.tag = "Swap"
    · cases ha : evt.amount with
      | none => simp [FeatureEngine.push_event, hL, hS, ha]
      | some a =>
          cases ht : evt.timestamp_ms with
          | none => simp [FeatureEngine.push_event, hL, hS, ha, ht]
          | some t => simp [FeatureEngine.push_event, hL, hS, ha, ht]
    · simp [FeatureEngine.push_event, hL, hS]

/-- Witness for C3: an unknown tag is rejected; a well-formed `Swap` event is
accepted and applies the swap functors. -/
theorem C3_push_event_validation_witness :
    (∃ msg, FeatureEngine.new.push_event
      { tag := "Bogus", delta := none, prev := none, amount := none,
        timestamp_ms := none } = .error msg) ∧
    FeatureEngine.new.push_event
      { tag := "Swap", delta := none, prev := none, amount := some 10,
        timestamp_ms := some 1000 } =
      .ok (FeatureEngine.new.apply_swap 10 1000) := by
  constructor
  · exact (C3_push_event_validation FeatureEngine.new _).1.mpr
      (Or.inl ⟨by decide, by decide⟩)
  · exact (C3_push_event_validation FeatureEngine.new _).2.2 10 1000 rfl rfl rfl

/-- Pushing a sequence of `Swap(amount, timestamp_ms)` events in order. -/
def pushSwaps (e : FeatureEngine) (ps : List (ℚ × ℤ)) : FeatureEngine :=
  ps.foldl (fun acc p => acc.apply_swap p.1 p.2) e

theorem apply_swap_last_swap_ts (e : FeatureEngine) (a : ℚ) (t : ℤ) :
    (e.apply_swap a t).last_swap_ts = some t := by
  cases hl : e.last_swap_ts <;> simp [FeatureEngine.apply_swap, hl]

theorem apply_swap_data_ia_some (e : FeatureEngine) (a : ℚ) (t last : ℤ)
    (h : e.last_swap_ts = some last) :
    (e.apply_swap a t).fv.data IDX_OF_IA_TIME_MS = ((t - last : ℤ) : ℚ) := by
  simp [FeatureEngine.apply_swap, h, FeatureVec.update, Function.update_same]

theorem apply_swap_data_ia_none (e : FeatureEngine) (a : ℚ) (t : ℤ)
    (h : e.last_swap_ts = none) :
    (e.apply_swap a t).fv.data IDX_OF_IA_TIME_MS = e.fv.data IDX_OF_IA_TIME_MS := by
  have h64 : IDX_OF_IA_TIME_MS ≠ IDX_OF_SIGNED_VOL := by decide
  have h65 : IDX_OF_IA_TIME_MS ≠ IDX_OF_TRADE_COUNT := by decide
  simp [FeatureEngine.apply_swap, h, FeatureVec.update,
    Function.update_noteq h64, Function.update_noteq h65]

theorem take_succ_eq_append (ps : List (ℚ × ℤ)) (k : ℕ) (hk : k < ps.length) :
    ps.take (k + 1) = ps.take k ++ [ps.get ⟨k, hk⟩] := by
  rw [List.take_succ, List.getElem?_eq_getElem hk]
  rfl

theorem pushSwaps_append_singleton (e : FeatureEngine) (l : List (ℚ × ℤ)) (p : ℚ × ℤ) :
    pushSwaps e (l ++ [p]) = (pushSwaps e l).apply_swap p.1 p.2 := by
  simp [pushSwaps, List.foldl_append]

theorem pushSwaps_take_ts (ps : List (ℚ × ℤ)) (e : FeatureEngine) (k : ℕ)
    (hk : k < ps.length) :
    (pushSwaps e (ps.take (k + 1))).last_swap_ts = some (ps.get ⟨k, hk⟩).2 := by
  rw [take_succ_eq_append ps k hk, pushSwaps_append_singleton, apply_swap_last_swap_ts]

/-- C2: pushing Swap events `(a_1,t_1), …, (a_N,t_N)` in order onto a fresh
engine, after event `k` (0-based) the inter-arrival slot holds `t_k − t_{k-1}`
for `k > 0` and `0` after the first event ever seen (the first swap leaves the
zero-initialised slot untouched). -/
theorem C2_inter_arrival_slot (ps : List (ℚ × ℤ))
    (hmono : ps.Pairwise (fun p q => p.2 < q.2)) (k : ℕ) (hk : k < ps.length) :
    (pushSwaps FeatureEngine.new (ps.take (k + 1))).fv.data IDX_OF_IA_TIME_MS =
      if k = 0 then 0
      else (((ps.get ⟨k, hk⟩).2 - (ps.get ⟨k - 1, by omega⟩).2 : ℤ) : ℚ) := by
  rw [take_succ_eq_append ps k hk, pushSwaps_append_singleton]
  cases k with
  | zero =>
    rw [apply_swap_data_ia_none _ _ _ (by rfl)]
    rfl
  | succ j =>
    rw [apply_swap_data_ia_some _ _ _ _
      (pushSwaps_take_ts ps FeatureEngine.new j (by omega))]
    simp

/-- Witness for C2: swaps at timestamps 1000 then 1500 leave the
inter-arrival slot holding 500 after the second event. -/
theorem C2_inter_arrival_slot_witness :
    (pushSwaps FeatureEngine.new
      ([((10 : ℚ), (1000 : ℤ)), ((-3 : ℚ), (1500 : ℤ))].take 2)).fv.data
      IDX_OF_IA_TIME_MS = 500 := by
  rw [C2_inter_arrival_slot [((10 : ℚ), (1000 : ℤ)), ((-3 : ℚ), (1500 : ℤ))]
    (by simp) 1 (by simp)]
  simp

/-- An external call to the engine: `push_event` (an erroring push leaves the
state as it was) or `on_slot_end`. -/
inductive Op where
  | push (evt : PyEvent)
  | slotEnd (slot : ℕ)

/-- One engine call; an invalid event leaves the state unchanged. -/
def FeatureEngine.step (e : FeatureEngine) (op : Op) : FeatureEngine :=
  match op with
  | .push evt =>
      match e.push_event evt with
      | .ok e2 => e2
      | .error _ => e
  | .slotEnd s => (e.on_slot_end s).2

/-- Every engine state reachable from `create_engine` by a sequence of calls. -/
def FeatureEngine.run (ops : List Op) : FeatureEngine :=
  ops.foldl FeatureEngine.step FeatureEngine.new

/-- Slot `i` carries no information in state `e`: raw accumulator, mean,
variance and both lag-buffer entries are zero. -/
def ZeroAt (e : FeatureEngine) (i : Fin 256) : Prop :=
  e.fv.data i = 0 ∧ e.fv.means i = 0 ∧ e.fv.vars i = 0 ∧
    e.lag1 i = 0 ∧ e.lag2 i = 0

theorem apply_liquidity_untouched (e : FeatureEngine) (d p : ℚ) (i : Fin 256)
    (h0 : i ≠ IDX_LIQ_DELTA_ABS) (h1 : i ≠ IDX_LIQ_DELTA_RATIO) :
    (e.apply_liquidity d p).fv.data i = e.fv.data i ∧
    (e.apply_liquidity d p).fv.means i = e.fv.means i ∧
    (e.apply_liquidity d p).fv.vars i = e.fv.vars i ∧
    (e.apply_liquidity d p).lag1 = e.lag1 ∧
    (e.apply_liquidity d p).lag2 = e.lag2 := by
  refine ⟨?_, ?_, ?_, rfl, rfl⟩ <;>
    simp [FeatureEngine.apply_liquidity, FeatureVec.update,
      Function.update_noteq h0, Function.update_noteq h1]

theorem apply_swap_untouched (e : FeatureEngine) (a : ℚ) (t : ℤ) (i : Fin 256)
    (h64 : i ≠ IDX_OF_SIGNED_VOL) (h65 : i ≠ IDX_OF_TRADE_COUNT)
    (h66 : i ≠ IDX_OF_IA_TIME_MS) :
    (e.apply_swap a t).fv.data i = e.fv.data i ∧
    (e.apply_swap a t).fv.means i = e.fv.means i ∧
    (e.apply_swap a t).fv.vars i = e.fv.vars i ∧
    (e.apply_swap a t).lag1 = e.lag1 ∧
    (e.apply_swap a t).lag2 = e.lag2 := by
  cases hl : e.last_swap_ts with
  | none =>
      refine ⟨?_, ?_, ?_, ?_, ?_⟩ <;>
        simp [FeatureEngine.apply_swap, hl, FeatureVec.update,
          Function.update_noteq h64, Function.update_noteq h65,
          Function.update_noteq h66]
  | some last =>
      refine ⟨?_, ?_, ?_, ?_, ?_⟩ <;>
        simp [FeatureEngine.apply_swap, hl, FeatureVec.update,
          Function.update_noteq h64, Function.update_noteq h65,
          Function.update_noteq h66]

theorem push_event_ok_cases (e : FeatureEngine) (evt : PyEvent) (e2 : FeatureEngine)
    (h : e.push_event evt = .ok e2) :
    (∃ d p, e2 = e.apply_liquidity d p) ∨ (∃ a t, e2 = e.apply_swap a t) := by
  by_cases hL : evt.tag = "Liquidity"
  · cases hd : evt.delta with
    | none => simp [FeatureEngine.push_event, hL, hd] at h
    | some d =>
        cases hp2 : evt.prev with
        | none => simp [FeatureEngine.push_event, hL, hd, hp2] at h
        | some p =>
            refine Or.inl ⟨d, p, ?_⟩
            simp [FeatureEngine.push_event, hL, hd, hp2] at h
            exact h.symm
  · by_cases hS : evt.tag = "Swap"
    · cases ha : evt.amount with
      | none => simp [FeatureEngine.push_event, hL, hS, ha] at h
      | some a =>
          cases ht : evt.timestamp_ms with
          | none => simp [FeatureEngine.push_event, hL, hS, ha, ht] at h
          | some t =>
              refine Or.inr ⟨a, t, ?_⟩
              simp [FeatureEngine.push_event, hL, hS, ha, ht] at h
              exact h.symm
    · simp [FeatureEngine.push_event, hL, hS] at h

theorem step_preserves_ZeroAt (e : FeatureEngine) (op : Op) (i : Fin 256)
    (h0 : i ≠ IDX_LIQ_DELTA_ABS) (h1 : i ≠ IDX_LIQ_DELTA_RATIO)
    (h64 : i ≠ IDX_OF_SIGNED_VOL) (h65 : i ≠ IDX_OF_TRADE_COUNT)
    (h66 : i ≠ IDX_OF_IA_TIME_MS) (he : ZeroAt e i) :
    ZeroAt (e.step op) i := by
  obtain ⟨hd, hm, hv, hl1, hl2⟩ := he
  cases op with
  | slotEnd s => exact ⟨rfl, hm, hv, hd, hl1⟩
  | push evt =>
      cases hp : e.push_event evt with
      | error msg =>
          simp only [FeatureEngine.step, hp]
          exact ⟨hd, hm, hv, hl1, hl2⟩
      | ok e2 =>
          simp only [FeatureEngine.step, hp]
          rcases push_event_ok_cases e evt e2 hp with ⟨d, p, rfl⟩ | ⟨a, t, rfl⟩
          · obtain ⟨u1, u2, u3, u4, u5⟩ := apply_liquidity_untouched e d p i h0 h1
            exact ⟨u1.trans hd, u2.trans hm, u3.trans hv,
              (congrFun u4 i).trans hl1, (congrFun u5 i).trans hl2⟩
          · obtain ⟨u1, u2, u3, u4, u5⟩ := apply_swap_untouched e a t i h64 h65 h66
            exact ⟨u1.trans hd, u2.trans hm, u3.trans hv,
              (congrFun u4 i).trans hl1, (congrFun u5 i).trans hl2⟩

/-- C10: in every state reachable from a fresh engine by any sequence of
`push_event` / `on_slot_end` calls, every slot other than 0, 1, 64, 65 and 66
has zero accumulator, mean and variance, and zero lag-buffer entries: no
operation ever writes the remaining 251 slots. -/
theorem C10_untouched_slots_stay_zero (ops : List Op) (i : Fin 256)
    (h0 : i.val ≠ 0) (h1 : i.val ≠ 1) (h64 : i.val ≠ 64) (h65 : i.val ≠ 65)
    (h66 : i.val ≠ 66) :
    ZeroAt (FeatureEngine.run ops) i := by
  have k0 : i ≠ IDX_LIQ_DELTA_ABS := fun h => h0 (congrArg Fin.val h)
  have k1 : i ≠ IDX_LIQ_DELTA_RATIO := fun h => h1 (congrArg Fin.val h)
  have k64 : i ≠ IDX_OF_SIGNED_VOL := fun h => h64 (congrArg Fin.val h)
  have k65 : i ≠ IDX_OF_TRADE_COUNT := fun h => h65 (congrArg Fin.val h)
  have k66 : i ≠ IDX_OF_IA_TIME_MS := fun h => h66 (congrArg Fin.val h)
  suffices h : ∀ e, ZeroAt e i → ZeroAt (ops.foldl FeatureEngine.step e) i from
    h FeatureEngine.new ⟨rfl, rfl, rfl, rfl, rfl⟩
  induction ops with
  | nil => exact fun e he => he
  | cons op rest ih =>
      exact fun e he => ih _ (step_preserves_ZeroAt e op i k0 k1 k64 k65 k66 he)

/-- Witness for C10: after a swap, a slot boundary and a liquidity event,
slot 7 still carries all zeros. -/
theorem C10_untouched_slots_stay_zero_witness :
    ZeroAt (FeatureEngine.run
      [Op.push { tag := "Swap", delta := none, prev := none, amount := some 10,
                 timestamp_ms := some 1000 },
       Op.slotEnd 5,
       Op.push { tag := "Liquidity", delta := some 2, prev := some 4,
                 amount := none, timestamp_ms := none }])
      ⟨7, by omega⟩ :=
  C10_untouched_slots_stay_zero _ _ (by decide) (by decide) (by decide)
    (by decide) (by decide)

theorem le_foldr_max (l : List ℕ) (a : ℕ) (h : a ∈ l) : a ≤ l.foldr max 0 := by
  induction l with
  | nil => cases h
  | cons b t ih =>
      rcases List.mem_cons.mp h with rfl | ht
      · exact le_max_left _ _
      · exact le_trans (ih ht) (le_max_right _ _)

theorem foldr_max_le (l : List ℕ) (b : ℕ) (h : ∀ a ∈ l, a ≤ b) :
    l.foldr max 0 ≤ b := by
  induction l with
  | nil => exact Nat.zero_le b
  | cons c t ih =>
      exact max_le (h c (List.mem_cons_self c t))
        (ih fun a ha => h a (List.mem_cons_of_mem c ha))

/-- C9: the catalog-drift check passes exactly when the catalog has 256
entries with pairwise-distinct indices covering 0..255; any duplicate index,
any entry count other than 256 and any maximum index other than 255 makes it
fail, so the build (and hence the engine) refuses to start. -/
theorem C9_catalog_check_iff (idx : List ℕ) :
    catalog_check idx = true ↔
      idx.length = 256 ∧ idx.Nodup ∧ ∀ i, i ∈ idx ↔ i < 256 := by
  simp only [catalog_check, Bool.and_eq_true, decide_eq_true_eq]
  constructor
  · rintro ⟨⟨hlen, hded⟩, hmax⟩
    have hsub : idx.dedup = idx :=
      (List.dedup_sublist idx).eq_of_length (by rw [hded, hlen])
    have hnd : idx.Nodup := by rw [← hsub]; exact List.nodup_dedup idx
    refine ⟨hlen, hnd, ?_⟩
    have hsubset : idx.toFinset ⊆ Finset.range 256 := by
      intro a ha
      rw [Finset.mem_range]
      have : a ≤ idx.foldr max 0 := le_foldr_max idx a (List.mem_toFinset.mp ha)
      omega
    have hcard : idx.toFinset.card = 256 := by
      rw [List.card_toFinset, hded]
    have hfin : idx.toFinset = Finset.range 256 :=
      Finset.eq_of_subset_of_card_le hsubset (by rw [hcard, Finset.card_range])
    intro i
    rw [← List.mem_toFinset, hfin, Finset.mem_range]
  · rintro ⟨hlen, hnd, hcov⟩
    refine ⟨⟨hlen, ?_⟩, ?_⟩
    · rw [List.dedup_eq_self.mpr hnd, hlen]
    · have h255 : 255 ∈ idx := (hcov 255).mpr (by omega)
      have hle : idx.foldr max 0 ≤ 255 := foldr_max_le idx 255 (fun a ha => by
        have := (hcov a).mp ha
        omega)
      have hge : 255 ≤ idx.foldr max 0 := le_foldr_max idx 255 h255
      omega

theorem apply_swap_data_none (e : FeatureEngine) (a : ℚ) (t : ℤ)
    (h : e.last_swap_ts = none) :
    (e.apply_swap a t).fv.data =
      Function.update (Function.update e.fv.data IDX_OF_SIGNED_VOL
        (e.fv.data IDX_OF_SIGNED_VOL + a)) IDX_OF_TRADE_COUNT
        (e.fv.data IDX_OF_TRADE_COUNT + 1) := by
  have hn : IDX_OF_TRADE_COUNT ≠ IDX_OF_SIGNED_VOL := by decide
  simp [FeatureEngine.apply_swap, h, FeatureVec.update, Function.update_noteq hn]

theorem apply_swap_data_some (e : FeatureEngine) (a : ℚ) (t last : ℤ)
    (h : e.last_swap_ts = some last) :
    (e.apply_swap a t).fv.data =
      Function.update (Function.update (Function.update e.fv.data IDX_OF_SIGNED_VOL
        (e.fv.data IDX_OF_SIGNED_VOL + a)) IDX_OF_TRADE_COUNT
        (e.fv.data IDX_OF_TRADE_COUNT + 1)) IDX_OF_IA_TIME_MS ((t - last : ℤ) : ℚ) := by
  have hn : IDX_OF_TRADE_COUNT ≠ IDX_OF_SIGNED_VOL := by decide
  simp [FeatureEngine.apply_swap, h, FeatureVec.update, Function.update_noteq hn]

theorem swapTwice_data (j : Fin 256) :
    ((FeatureEngine.new.apply_swap 10 1000).apply_swap (-3) 1500).fv.data j =
      if j.val = 64 then 7 else if j.val = 65 then 2
      else if j.val = 66 then 500 else 0 := by
  have h1 : (FeatureEngine.new.apply_swap 10 1000).last_swap_ts = some 1000 :=
    apply_swap_last_swap_ts _ _ _
  rw [apply_swap_data_some _ _ _ _ h1,
    apply_swap_data_none FeatureEngine.new 10 1000 rfl]
  rcases j with ⟨jv, hj⟩
  simp only [Function.update, FeatureEngine.new, FeatureVec.new,
    IDX_OF_SIGNED_VOL, IDX_OF_TRADE_COUNT, IDX_OF_IA_TIME_MS, eq_rec_constant,
    Fin.mk.injEq]
  split_ifs <;> norm_num <;> omega

/-- C1: on a fresh engine, pushing `Swap(amount=10, ts=1000)` then
`Swap(amount=-3, ts=1500)` and calling `on_slot_end` yields a snapshot whose
current region has signed volume 7 (slot 64), trade count 2 (slot 65) and
inter-arrival 500 (slot 66), every other current slot 0, and all-zero lag-1
and lag-2 regions. -/
theorem C1_end_to_end :
    ∃ e1 e2,
      FeatureEngine.new.push_event
        { tag := "Swap", delta := none, prev := none, amount := some 10,
          timestamp_ms := some 1000 } = .ok e1 ∧
      e1.push_event
        { tag := "Swap", delta := none, prev := none, amount := some (-3),
          timestamp_ms := some 1500 } = .ok e2 ∧
      ∀ i : Fin 768, (e2.on_slot_end 0).1 i =
        if i.val = 64 then 7 else if i.val = 65 then 2
        else if i.val = 66 then 500 else 0 := by
  refine ⟨FeatureEngine.new.apply_swap 10 1000,
    (FeatureEngine.new.apply_swap 10 1000).apply_swap (-3) 1500, rfl, rfl, ?_⟩
  intro i
  simp only [FeatureEngine.on_slot_end]
  by_cases h2 : i.val < 256
  · rw [dif_pos h2, swapTwice_data ⟨i.val, h2⟩]
  · have c64 : ¬ i.val = 64 := by omega
    have c65 : ¬ i.val = 65 := by omega
    have c66 : ¬ i.val = 66 := by omega
    rw [if_neg c64, if_neg c65, if_neg c66, dif_neg h2]
    by_cases h5 : i.val < 512
    · rw [dif_pos h5]
      rfl
    · rw [dif_neg h5]
      rfl
